import Mathlib

/-!
A shallow embedding of the alignment-classification and abundance-estimation
engine of phylo_cnv/species.py, together with proofs about it.

Python floats are modelled as exact rationals (ℚ), Python ints as ℤ/ℕ.
Python dicts whose values are mutable lists are modelled with an explicit
store (`Store`) of lists plus a dictionary (`Dict`) mapping keys to store
references, so that the sharing of list objects between dictionaries
(`dict.copy()` is shallow in Python) is captured faithfully.
KeyError / ValueError exception paths are modelled by `Option`:
a `none` result corresponds to the Python code raising.
-/

namespace Species

/-- One well-typed alignment record, i.e. one row of the 12-column tabular
alignment format in the field order of `parse_blast`
(`query target pid aln mis gaps qstart qend tstart tend evalue score`;
`aln` is parsed with `int`, the other numeric columns with `float`). -/
structure Aln where
  query : String
  target : String
  pid : ℚ
  aln : ℤ
  mis : ℚ
  gaps : ℚ
  qstart : ℚ
  qend : ℚ
  tstart : ℚ
  tend : ℚ
  evalue : ℚ
  score : ℚ
  deriving DecidableEq

instance : Inhabited Aln := ⟨⟨"", "", 0, 0, 0, 0, 0, 0, 0, 0, 0, 0⟩⟩

/-- Python `s.split(sep)` for a single-character separator, at the character
level (empty components are kept, as in Python; the result is never `[]`). -/
def splitChar (sep : Char) : List Char → List (List Char)
  | [] => [[]]
  | c :: cs =>
    let r := splitChar sep cs
    if c = sep then [] :: r
    else
      match r with
      | [] => [[c]]
      | h :: t => (c :: h) :: t

/-- Python `s.split('_')` etc., lifted back to strings. -/
def pySplit (sep : Char) (s : String) : List String :=
  (splitChar sep s.data).map (fun cs => String.mk cs)

/-- Digits-only numeral to a natural number; `none` on the empty list or a
non-digit character. -/
def parseDigits (cs : List Char) : Option ℕ :=
  if cs = [] then none
  else cs.foldlM (fun acc c => if c.isDigit then some (acc * 10 + (c.toNat - 48)) else none) 0

/-- `target.split('_')[0]`: the genome-cluster id encoded as the prefix of a
target identifier (`split` never returns `[]`, so the `headD` default is
never used). -/
def cluster_of (target : String) : String := (pySplit '_' target).headD ""

/-- `target.split('_')[-1]`: the marker id encoded as the suffix of a target
identifier. -/
def marker_of (target : String) : String := (pySplit '_' target).getLastD ""

/-- `int(aln['query'].split('_')[-1])`: the read length encoded as the
trailing underscore-delimited integer of the query identifier.  (On an
identifier not ending in a numeral Python raises `ValueError`; that path,
never taken on the well-formed inputs considered here, is defaulted to 0.) -/
def read_len (query : String) : ℕ :=
  (parseDigits ((pySplit '_' query).getLastD "").data).getD 0

/-- `query_coverage` from the source: `float(aln['aln'])/int(query.split('_')[-1])`. -/
def query_coverage (a : Aln) : ℚ := (a.aln : ℚ) / (read_len a.query : ℚ)

/-! ### The alignment record reader (`parse_blast`)

`parse_blast` builds, for each line, `dict([(field, format(value)) for
field, format, value in zip(fields, formats, values)])` where `values` is the
whitespace-split line.  A Python `dict` built from distinct field names is
modelled as the association list of (field, value) pairs produced by the
comprehension; `zip` truncates at the shortest argument. -/

/-- A dynamically typed Python value as produced by the `str`/`float`/`int`
converters of `parse_blast`. -/
inductive PyVal where
  | str (s : String)
  | num (q : ℚ)
  | int (n : ℤ)
  deriving DecidableEq

/-- The three converter functions appearing in `formats`. -/
inductive Fmt where
  | fstr
  | ffloat
  | fint
  deriving DecidableEq

/-- `fields` of `parse_blast`. -/
def blast_fields : List String :=
  ["query", "target", "pid", "aln", "mis", "gaps", "qstart", "qend",
   "tstart", "tend", "evalue", "score"]

/-- `formats` of `parse_blast`: `[str,str,float,int,float,float,float,float,float,float,float,float]`. -/
def blast_formats : List Fmt :=
  [.fstr, .fstr, .ffloat, .fint, .ffloat, .ffloat, .ffloat, .ffloat,
   .ffloat, .ffloat, .ffloat, .ffloat]

/-- Python `int(s)` on plain decimal numerals (optional leading minus);
`none` models the `ValueError` raised on anything else.  (Exotic accepted
forms such as whitespace padding are outside the inputs considered here.) -/
def pyInt (s : String) : Option ℤ :=
  match s.data with
  | [] => none
  | c :: rest =>
    if c = '-' then (parseDigits rest).map (fun n => -(n : ℤ))
    else (parseDigits (c :: rest)).map (fun n => (n : ℤ))

/-- Nonnegative decimal numeral (with optional fractional part) to ℚ. -/
def pyNatFloat (cs : List Char) : Option ℚ :=
  match splitChar '.' cs with
  | [w] => (parseDigits w).map (fun n => (n : ℚ))
  | [w, f] => do
      let wn ← if w = [] then some 0 else parseDigits w
      let fn ← if f = [] then some 0 else parseDigits f
      some ((wn : ℚ) + (fn : ℚ) / (10 ^ f.length))
  | _ => none

/-- Python `float(s)` on plain decimal numerals (optional minus, optional
fractional part; exponent forms are outside the inputs considered here);
`none` models the `ValueError` raised on malformed numerals. -/
def pyFloat (s : String) : Option ℚ :=
  match s.data with
  | [] => none
  | c :: rest =>
    if c = '-' then (pyNatFloat rest).map Neg.neg
    else pyNatFloat (c :: rest)

/-- Apply one converter from `formats` to one whitespace-separated token. -/
def applyFmt : Fmt → String → Option PyVal
  | .fstr, s => some (.str s)
  | .ffloat, s => (pyFloat s).map .num
  | .fint, s => (pyInt s).map .int

/-- One line of `parse_blast`: the record
`[(field, format(value)) for field, format, value in zip(fields, formats, values)]`
built from the whitespace-split tokens of the line.  `zip` truncates at the
shortest list, exactly as in Python; a converter failure (Python
`ValueError`) gives `none`. -/
def parse_line (values : List String) : Option (List (String × PyVal)) :=
  ((blast_fields.zip blast_formats).zip values).mapM
    (fun p => (applyFmt p.1.2 p.2).map (fun v => (p.1.1, v)))

/-- `parse_blast` over a whole file, whose lines are given as their
whitespace-split token lists. -/
def parse_blast (lines : List (List String)) : Option (List (List (String × PyVal))) :=
  lines.mapM parse_line

/-! ### The best-hit resolver (`find_best_hits`)

`best_hits` is a Python dict from query ids to the current tied top-scoring
group; it is modelled as an association list (`BestHits`), since insertion
order is irrelevant to every property proved below.  The per-marker cutoff
table `marker_cutoffs` (a dict loaded by `get_markers`) is modelled as the
lookup function `cutoffs : String → ℚ` it implements. -/

abbrev BestHits := List (String × List Aln)

/-- `aln['query'] in best_hits` / `best_hits[aln['query']]`, as one lookup. -/
def bh_lookup (bh : BestHits) (q : String) : Option (List Aln) :=
  (bh.find? (fun p => p.1 == q)).map Prod.snd

/-- `best_hits[q] = g` on an existing key `q`. -/
def bh_update (bh : BestHits) (q : String) (g : List Aln) : BestHits :=
  bh.map (fun p => if p.1 == q then (q, g) else p)

/-- The two acceptance filters of `find_best_hits`, in source order:
a record is skipped when `aln['pid'] < marker_cutoffs[marker_id]` or when
`query_coverage(aln) < 0.75`. -/
def accept (cutoffs : String → ℚ) (a : Aln) : Bool :=
  !(decide (a.pid < cutoffs (marker_of a.target))) && !(decide (query_coverage a < 3/4))

/-- The body of `find_best_hits`'s loop for one alignment record. -/
def fbh_step (cutoffs : String → ℚ) (bh : BestHits) (a : Aln) : BestHits :=
  if accept cutoffs a then
    match bh_lookup bh a.query with
    | none => bh ++ [(a.query, [a])]
    | some g =>
      if (g.headD a).score = a.score then bh_update bh a.query (g ++ [a])
      else if (g.headD a).score < a.score then bh_update bh a.query [a]
      else bh
  else bh

/-- The `best_hits` dict after the whole pass of `find_best_hits`. -/
def best_hits_table (cutoffs : String → ℚ) (l : List Aln) : BestHits :=
  l.foldl (fbh_step cutoffs) []

/-- `find_best_hits` returns `best_hits.values()`. -/
def find_best_hits (cutoffs : String → ℚ) (l : List Aln) : List (List Aln) :=
  (best_hits_table cutoffs l).map Prod.snd

/-! ### The store/dict model for `assign_unique` / `assign_non_unique`

`unique_alns` and `total_alns` are Python dicts from cluster ids to mutable
lists of records.  `total_alns = unique_alns.copy()` is a *shallow* copy:
the two dicts hold the same list objects.  To capture this, lists live in a
`Store` (indexed by allocation order) and a `Dict` maps cluster ids to store
references; the shallow copy is then literally the same `Dict` value, and an
append through either dict is an update of the shared store. -/

abbrev Store := List (List Aln)

abbrev Dict := List (String × ℕ)

/-- `d[k]`, returning the store reference; `none` models a `KeyError`. -/
def dictLookup (d : Dict) (k : String) : Option ℕ :=
  (d.find? (fun p => p.1 == k)).map Prod.snd

/-- Building a dict from a pair list: a later duplicate key overwrites the
value at the key's original position, as in Python's `dict(...)`. -/
def dictInsert (d : Dict) (k : String) (r : ℕ) : Dict :=
  if d.any (fun p => p.1 == k) then d.map (fun p => if p.1 == k then (k, r) else p)
  else d ++ [(k, r)]

/-- One step of building the initial cluster dict: allocate a fresh empty
list in the store and bind the cluster id to it. -/
def init_step (sd : Store × Dict) (k : String) : Store × Dict :=
  (sd.1 ++ [[]], dictInsert sd.2 k sd.1.length)

/-- `dict([(x.rstrip().split()[0], []) for x in open(paths['cluster_ids'])])`:
one fresh empty list per registry line (the registry is given as its list of
first-column cluster ids). -/
def initState (registry : List String) : Store × Dict :=
  registry.foldl init_step ([], [])

/-- `somedict[cluster_id].append(a)`: mutate the list object at reference
`r`.  (Callers only reach this with a valid `r`; an out-of-range `set` is a
no-op.) -/
def storeAppend (s : Store) (r : ℕ) (a : Aln) : Store :=
  s.set r (s.getD r [] ++ [a])

/-- Loop body of `assign_unique`: a best-hit group of size exactly 1 is
appended to its cluster's list; any other group is only counted. -/
def assign_unique_step (sd : Store × Dict) (grp : List Aln) : Option (Store × Dict) :=
  match grp with
  | [a] => (dictLookup sd.2 (cluster_of a.target)).map (fun r => (storeAppend sd.1 r a, sd.2))
  | _ => some sd

/-- The loop of `assign_unique` over all best-hit groups. -/
def assign_unique_go (sd : Store × Dict) : List (List Aln) → Option (Store × Dict)
  | [] => some sd
  | grp :: rest =>
    match assign_unique_step sd grp with
    | none => none
    | some sd' => assign_unique_go sd' rest

/-- `assign_unique(args, paths, alns)`: initialize one empty list per
registry cluster, then assign every uniquely mapped read. -/
def assign_unique (registry : List String) (alns : List (List Aln)) : Option (Store × Dict) :=
  assign_unique_go (initState registry) alns

/-- Inverse-CDF draw: the first index whose cumulative weight exceeds the
threshold `t` (for a weighted draw, `t = u * sum(weights)` with `u` the
uniform variate in `[0,1)`; `random.sample(clusters, 1)` is the same draw
with all weights 1). -/
def chooseAux : List ℚ → ℚ → ℕ
  | [], _ => 0
  | w :: rest, t => if t < w then 0 else chooseAux rest (t - w) + 1

/-- The random choice of `assign_non_unique` for one ambiguous group:
`sample(clusters, 1)[0]` when all counts are zero, otherwise
`np.random.choice(clusters, 1, p=[c/sum(counts) for c in counts])[0]`,
with the random source modelled by the uniform variate `u`. -/
def pick_cluster (clusters : List String) (counts : List ℚ) (u : ℚ) : String :=
  if counts.sum = 0 then
    clusters.getD (chooseAux (clusters.map (fun _ => (1 : ℚ))) (u * clusters.length)) ""
  else
    clusters.getD (chooseAux counts (u * counts.sum)) ""

/-- State of the `assign_non_unique` loop: the shared store, the dict
(`total_alns` and `unique_alns` hold the same references, hence one `Dict`),
the number of random draws consumed, and — for use in the theorems below —
the trace of the weight vectors used for each ambiguous group. -/
structure ANUState where
  store : Store
  dict : Dict
  draws : ℕ
  trace : List (List ℚ)
  deriving DecidableEq

/-- `clusters = [x['target'].split('_')[0] for x in aln]`. -/
def anu_clusters (grp : List Aln) : List String :=
  grp.map (fun a => cluster_of a.target)

/-- `counts = [len(unique_alns[x]) for x in clusters]`, reading each list
through the store at the already-looked-up references (Python's int counts
enter the probability computation as floats). -/
def anu_counts (s : Store) (refs : List ℕ) : List ℚ :=
  refs.map (fun r => (((s.getD r []).length : ℕ) : ℚ))

/-- Loop body of `assign_non_unique` for one best-hit group: for an
ambiguous group, look up each candidate's current list through the (shared)
dict, weight by the current list lengths, draw a cluster, and append
`aln[clusters.index(cluster_id)]` to that cluster's shared list. -/
def anu_step (us : ℕ → ℚ) (st : ANUState) (grp : List Aln) : Option ANUState :=
  if 1 < grp.length then
    match (anu_clusters grp).mapM (dictLookup st.dict) with
    | none => none
    | some refs =>
      match dictLookup st.dict
          (pick_cluster (anu_clusters grp) (anu_counts st.store refs) (us st.draws)) with
      | none => none
      | some r =>
        some ⟨storeAppend st.store r
                (grp.getD ((anu_clusters grp).indexOf
                    (pick_cluster (anu_clusters grp) (anu_counts st.store refs) (us st.draws)))
                  (grp.headD default)),
              st.dict, st.draws + 1, st.trace ++ [anu_counts st.store refs]⟩
  else some st

/-- The loop of `assign_non_unique` over all best-hit groups. -/
def anu_go (us : ℕ → ℚ) (st : ANUState) : List (List Aln) → Option ANUState
  | [] => some st
  | grp :: rest =>
    match anu_step us st grp with
    | none => none
    | some st' => anu_go us st' rest

/-- `assign_non_unique(args, paths, alns, unique_alns)`: `total_alns` starts
as the shallow copy of `unique_alns` (same dict entries, same list
references), then every ambiguous read is assigned.  The random source is
modelled as the stream `us` of uniform variates, one per ambiguous read. -/
def assign_non_unique (us : ℕ → ℚ) (alns : List (List Aln)) (s : Store) (d : Dict) :
    Option (Store × Dict) :=
  (anu_go us ⟨s, d, 0, []⟩ alns).map (fun st => (st.store, st.dict))

/-- The weight vectors `counts = [len(unique_alns[x]) for x in clusters]`
actually used for the successive ambiguous groups of the pass. -/
def ambig_weights (us : ℕ → ℚ) (alns : List (List Aln)) (s : Store) (d : Dict) :
    Option (List (List ℚ)) :=
  (anu_go us ⟨s, d, 0, []⟩ alns).map ANUState.trace

/-! ### The abundance normalizer (`normalize_counts`) and the writer

`normalize_counts` iterates over `cluster_alns.items()`; the items list of
the cluster dict is recovered from the store/dict model by `dictItems`.
The gene-length dict (initialized by `read_gene_lengths` over the same
registry file, so that every cluster id occurring here is a key) is modelled
as the lookup function `gl : String → ℤ` it implements. -/

/-- `cluster_alns.items()` viewed through the store. -/
def dictItems (s : Store) (d : Dict) : List (String × List Aln) :=
  d.map (fun p => (p.1, s.getD p.2 []))

/-- First loop of `normalize_counts`: per cluster, `bp = sum(aln['aln'])`
and `cov = float(bp)/total_gene_length[cluster_id]` when the cluster has
assigned records, `cov = 0.0` (no division performed) otherwise. -/
def cluster_covs (items : List (String × List Aln)) (gl : String → ℤ) : List (String × ℚ) :=
  items.map (fun p =>
    (p.1, if 0 < p.2.length then (((p.2.map Aln.aln).sum : ℤ) : ℚ) / ((gl p.1 : ℤ) : ℚ) else 0))

/-- `total_cov = sum([_['cov'] for _ in cluster_abundance.values()])`. -/
def total_cov (items : List (String × List Aln)) (gl : String → ℤ) : ℚ :=
  ((cluster_covs items gl).map Prod.snd).sum

/-- Second loop of `normalize_counts`:
`rel_abun = cov/total_cov if total_cov > 0 else 0`. -/
def normalize_counts (items : List (String × List Aln)) (gl : String → ℤ) :
    List (String × ℚ × ℚ) :=
  (cluster_covs items gl).map (fun p =>
    (p.1, p.2, if 0 < total_cov items gl then p.2 / total_cov items gl else 0))

/-- One output data row of `write_abundance`:
`'\t'.join([str(x) for x in [cluster_id, cov, rel_abun]])` (the textual
rendering of a Python float is stood in for by the rendering of the exact
rational). -/
def render_row (p : String × ℚ × ℚ) : String :=
  p.1 ++ "\t" ++ toString p.2.1 ++ "\t" ++ toString p.2.2

/-- `write_abundance`: the header line followed by one data row per entry of
the abundance table, in table order. -/
def write_abundance (ab : List (String × ℚ × ℚ)) : List String :=
  "cluster_id\tcoverage\trelative_abundance" :: ab.map render_row

/-! ### Helper lemmas: the store/dict model -/

/-- The number of records assigned across all clusters of a dict, i.e.
`sum(len(v) for v in cluster_alns.values())`. -/
def sumLens (s : Store) (d : Dict) : ℕ :=
  (d.map (fun p => (s.getD p.2 []).length)).sum

/-- Validity of a dict over a store: references are distinct and in range
(this holds for every dict built by `initState` and is preserved by both
assignment passes). -/
def DInv (s : Store) (d : Dict) : Prop :=
  (d.map Prod.snd).Nodup ∧ ∀ p ∈ d, p.2 < s.length

instance (s : Store) (d : Dict) : Decidable (DInv s d) := by
  unfold DInv; infer_instance

lemma length_storeAppend (s : Store) (r : ℕ) (a : Aln) :
    (storeAppend s r a).length = s.length := by
  simp [storeAppend]

lemma getD_storeAppend_self (s : Store) (r : ℕ) (a : Aln) (h : r < s.length) :
    (storeAppend s r a).getD r [] = s.getD r [] ++ [a] := by
  simp [storeAppend, List.getD_eq_getElem?_getD, List.getElem?_set_self, h]

lemma getD_storeAppend_ne (s : Store) (r r' : ℕ) (a : Aln) (h : r' ≠ r) :
    (storeAppend s r a).getD r' [] = s.getD r' [] := by
  simp [storeAppend, List.getD_eq_getElem?_getD, List.getElem?_set_ne (fun hc => h hc.symm)]

lemma getD_storeAppend_cases (s : Store) (r r' : ℕ) (a : Aln) :
    (storeAppend s r a).getD r' [] = s.getD r' [] ∨
      (storeAppend s r a).getD r' [] = s.getD r' [] ++ [a] := by
  by_cases hr : r' = r
  · subst hr
    by_cases hlt : r' < s.length
    · exact Or.inr (getD_storeAppend_self s r' a hlt)
    · left
      have h2 : storeAppend s r' a = s := by
        unfold storeAppend
        apply List.set_eq_of_length_le
        omega
      rw [h2]
  · exact Or.inl (getD_storeAppend_ne s r r' a hr)

lemma sumLens_storeAppend_not_mem (s : Store) (d : Dict) (r : ℕ) (a : Aln)
    (h : r ∉ d.map Prod.snd) :
    sumLens (storeAppend s r a) d = sumLens s d := by
  induction d with
  | nil => simp [sumLens]
  | cons p t ih =>
    simp only [List.map_cons, List.mem_cons, not_or] at h
    simp only [sumLens, List.map_cons, List.sum_cons] at ih ⊢
    rw [getD_storeAppend_ne s r p.2 a (Ne.symm h.1), ih h.2]

lemma sumLens_storeAppend_mem (s : Store) (d : Dict) (r : ℕ) (a : Aln)
    (hnd : (d.map Prod.snd).Nodup) (hmem : r ∈ d.map Prod.snd) (hlt : r < s.length) :
    sumLens (storeAppend s r a) d = sumLens s d + 1 := by
  induction d with
  | nil => simp at hmem
  | cons p t ih =>
    simp only [List.map_cons, List.nodup_cons] at hnd
    simp only [List.map_cons, List.mem_cons] at hmem
    simp only [sumLens, List.map_cons, List.sum_cons] at ih ⊢
    rcases hmem with hp | ht
    · subst hp
      rw [getD_storeAppend_self s p.2 a hlt]
      have := sumLens_storeAppend_not_mem s t p.2 a hnd.1
      simp only [sumLens] at this
      rw [this]
      simp only [List.length_append, List.length_cons, List.length_nil]
      omega
    · have hne : p.2 ≠ r := by
        intro hc
        exact hnd.1 (hc ▸ ht)
      rw [getD_storeAppend_ne s r p.2 a hne, ih hnd.2 ht]
      omega

lemma dictLookup_mem {d : Dict} {k : String} {r : ℕ} (h : dictLookup d k = some r) :
    (k, r) ∈ d := by
  unfold dictLookup at h
  cases hf : d.find? (fun p => p.1 == k) with
  | none => rw [hf] at h; simp at h
  | some p =>
    rw [hf] at h
    have hp := List.find?_some hf
    have hm : p ∈ d := List.mem_of_find?_eq_some hf
    have h1 : p.1 = k := by simpa using hp
    have h2 : p.2 = r := by simpa using h
    have : p = (k, r) := by
      cases p
      simp_all
    exact this ▸ hm

lemma dictLookup_isSome_of_mem_keys {d : Dict} {c : String} (h : c ∈ d.map Prod.fst) :
    ∃ r, dictLookup d c = some r := by
  induction d with
  | nil => simp at h
  | cons p t ih =>
    by_cases hb : p.1 = c
    · exact ⟨p.2, by simp [dictLookup, List.find?, hb]⟩
    · have hc : c ∈ t.map Prod.fst := by
        simp only [List.map_cons, List.mem_cons] at h
        tauto
      obtain ⟨r, hr⟩ := ih hc
      refine ⟨r, ?_⟩
      simp only [dictLookup, List.find?] at hr ⊢
      have : (p.1 == c) = false := by simpa using hb
      rw [this]
      exact hr

lemma any_key_false {d : Dict} {k : String} (h : k ∉ d.map Prod.fst) :
    d.any (fun p => p.1 == k) = false := by
  rw [List.any_eq_false]
  intro p hp
  simp only [beq_iff_eq]
  intro hc
  exact h (List.mem_map.mpr ⟨p, hp, hc⟩)

lemma init_go_spec (reg : List String) :
    ∀ (s : Store) (d : Dict), reg.Nodup →
      (∀ k ∈ reg, k ∉ d.map Prod.fst) →
      (∀ p ∈ d, p.2 < s.length) → (d.map Prod.snd).Nodup →
      (reg.foldl init_step (s, d)).1 = s ++ List.replicate reg.length [] ∧
        (reg.foldl init_step (s, d)).2.map Prod.fst = d.map Prod.fst ++ reg ∧
        DInv (reg.foldl init_step (s, d)).1 (reg.foldl init_step (s, d)).2 := by
  induction reg with
  | nil =>
    intro s d _ _ hv hndr
    refine ⟨by simp, by simp, hndr, hv⟩
  | cons k t ih =>
    intro s d hnd hk hv hndr
    rw [List.foldl_cons]
    obtain ⟨hk1, hnd'⟩ := List.nodup_cons.mp hnd
    have hstep : init_step (s, d) k = (s ++ [[]], d ++ [(k, s.length)]) := by
      simp only [init_step, dictInsert]
      rw [any_key_false (hk k (by simp))]
      simp
    rw [hstep]
    have hk' : ∀ k' ∈ t, k' ∉ (d ++ [(k, s.length)]).map Prod.fst := by
      intro k' hk'
      simp only [List.map_append, List.mem_append, List.map_cons, List.map_nil,
        List.mem_singleton, not_or]
      constructor
      · exact hk k' (by simp [hk'])
      · intro hc
        exact hk1 (hc ▸ hk')
    have hv' : ∀ p ∈ d ++ [(k, s.length)], p.2 < (s ++ [[]]).length := by
      intro p hp
      rcases List.mem_append.mp hp with hp | hp
      · have := hv p hp
        simp [List.length_append]
        omega
      · simp only [List.mem_singleton] at hp
        subst hp
        simp [List.length_append]
    have hndr' : ((d ++ [(k, s.length)]).map Prod.snd).Nodup := by
      simp only [List.map_append, List.map_cons, List.map_nil]
      rw [List.nodup_append]
      refine ⟨hndr, by simp, ?_⟩
      intro x hx
      simp only [List.mem_singleton]
      obtain ⟨p, hp, rfl⟩ := List.mem_map.mp hx
      have := hv p hp
      simp
      omega
    obtain ⟨ih1, ih2, ih3⟩ := ih (s ++ [[]]) (d ++ [(k, s.length)]) hnd' hk' hv' hndr'
    refine ⟨?_, ?_, ih3⟩
    · rw [ih1, List.append_assoc]
      congr 1
    · rw [ih2]
      simp [List.append_assoc]

lemma initState_spec (reg : List String) (hnd : reg.Nodup) :
    (initState reg).1 = List.replicate reg.length [] ∧
      (initState reg).2.map Prod.fst = reg ∧
      DInv (initState reg).1 (initState reg).2 := by
  have h := init_go_spec reg [] [] hnd (by simp) (by simp) (by simp)
  simpa [initState] using h

lemma getD_replicate_empty (n i : ℕ) :
    (List.replicate n ([] : List Aln)).getD i [] = [] := by
  induction n generalizing i with
  | zero => simp [List.getD]
  | succ n ih =>
    cases i with
    | zero => simp [List.replicate]
    | succ j =>
      simp only [List.replicate, List.getD_cons_succ]
      exact ih j

lemma sumLens_initState (reg : List String) (hnd : reg.Nodup) :
    sumLens (initState reg).1 (initState reg).2 = 0 := by
  obtain ⟨hs, -, -⟩ := initState_spec reg hnd
  unfold sumLens
  rw [hs]
  apply List.sum_eq_zero
  intro x hx
  obtain ⟨p, hp, rfl⟩ := List.mem_map.mp hx
  rw [getD_replicate_empty]
  rfl

/-! ### Helper lemmas: the two assignment passes -/

lemma assign_unique_go_spec :
    ∀ (alns : List (List Aln)) (sd sd' : Store × Dict),
      assign_unique_go sd alns = some sd' → DInv sd.1 sd.2 →
      DInv sd'.1 sd'.2 ∧ sd'.2 = sd.2 ∧ sd'.1.length = sd.1.length ∧
        sumLens sd'.1 sd'.2 = sumLens sd.1 sd.2 + alns.countP (fun g => g.length == 1) := by
  intro alns
  induction alns with
  | nil =>
    intro sd sd' h hinv
    simp only [assign_unique_go] at h
    injection h with h
    subst h
    exact ⟨hinv, rfl, rfl, by simp⟩
  | cons grp rest ih =>
    intro sd sd' h hinv
    simp only [assign_unique_go] at h
    cases hstep : assign_unique_step sd grp with
    | none => rw [hstep] at h; cases h
    | some sd2 =>
      rw [hstep] at h
      have hkey : DInv sd2.1 sd2.2 ∧ sd2.2 = sd.2 ∧ sd2.1.length = sd.1.length ∧
          sumLens sd2.1 sd2.2 = sumLens sd.1 sd.2 + (if grp.length == 1 then 1 else 0) := by
        match grp, hstep with
        | [], hstep =>
          simp only [assign_unique_step] at hstep
          injection hstep with hstep
          subst hstep
          exact ⟨hinv, rfl, rfl, by simp⟩
        | [a], hstep =>
          simp only [assign_unique_step] at hstep
          cases hl : dictLookup sd.2 (cluster_of a.target) with
          | none => rw [hl] at hstep; cases hstep
          | some r =>
            rw [hl] at hstep
            simp only [Option.map_some'] at hstep
            injection hstep with hstep
            subst hstep
            have hmem : (cluster_of a.target, r) ∈ sd.2 := dictLookup_mem hl
            have hr : r < sd.1.length := hinv.2 _ hmem
            have hrm : r ∈ sd.2.map Prod.snd := List.mem_map.mpr ⟨_, hmem, rfl⟩
            refine ⟨⟨hinv.1, ?_⟩, rfl, length_storeAppend .., ?_⟩
            · intro p hp
              rw [length_storeAppend]
              exact hinv.2 p hp
            · simpa using sumLens_storeAppend_mem sd.1 sd.2 r a hinv.1 hrm hr
        | a :: b :: t, hstep =>
          simp only [assign_unique_step] at hstep
          injection hstep with hstep
          subst hstep
          exact ⟨hinv, rfl, rfl, by simp⟩
      obtain ⟨hinv2, hd2, hlen2, hsum2⟩ := hkey
      obtain ⟨hinv', hd', hlen', hsum'⟩ := ih sd2 sd' h hinv2
      refine ⟨hinv', hd'.trans hd2, hlen'.trans hlen2, ?_⟩
      rw [hsum', hsum2, List.countP_cons]
      by_cases hg : (grp.length == 1) = true
      · rw [if_pos hg]
        omega
      · rw [if_neg hg]
        omega

lemma anu_step_spec {us : ℕ → ℚ} {st st2 : ANUState} {grp : List Aln}
    (h : anu_step us st grp = some st2) (hinv : DInv st.store st.dict) :
    DInv st2.store st2.dict ∧ st2.dict = st.dict ∧ st2.store.length = st.store.length ∧
      sumLens st2.store st2.dict
        = sumLens st.store st.dict + (if 1 < grp.length then 1 else 0) := by
  by_cases hlen : 1 < grp.length
  · rw [anu_step, if_pos hlen] at h
    split at h
    · cases h
    · rename_i refs hm
      split at h
      · cases h
      · rename_i r hl
        injection h with h
        subst h
        have hmem := dictLookup_mem hl
        have hr : r < st.store.length := hinv.2 _ hmem
        have hrm : r ∈ st.dict.map Prod.snd := List.mem_map.mpr ⟨_, hmem, rfl⟩
        refine ⟨⟨hinv.1, ?_⟩, rfl, length_storeAppend .., ?_⟩
        · intro p hp
          rw [length_storeAppend]
          exact hinv.2 p hp
        · simpa [if_pos hlen] using
            sumLens_storeAppend_mem st.store st.dict r _ hinv.1 hrm hr
  · rw [anu_step, if_neg hlen] at h
    injection h with h
    subst h
    simp [hlen, hinv]

lemma anu_go_spec (us : ℕ → ℚ) :
    ∀ (alns : List (List Aln)) (st st' : ANUState),
      anu_go us st alns = some st' → DInv st.store st.dict →
      DInv st'.store st'.dict ∧ st'.dict = st.dict ∧ st'.store.length = st.store.length ∧
        sumLens st'.store st'.dict
          = sumLens st.store st.dict + alns.countP (fun g => decide (1 < g.length)) := by
  intro alns
  induction alns with
  | nil =>
    intro st st' h hinv
    simp only [anu_go] at h
    injection h with h
    subst h
    exact ⟨hinv, rfl, rfl, by simp⟩
  | cons grp rest ih =>
    intro st st' h hinv
    simp only [anu_go] at h
    cases hstep : anu_step us st grp with
    | none => rw [hstep] at h; cases h
    | some st2 =>
      rw [hstep] at h
      obtain ⟨hinv2, hd2, hlen2, hsum2⟩ := anu_step_spec hstep hinv
      obtain ⟨hinv', hd', hlen', hsum'⟩ := ih st2 st' h hinv2
      refine ⟨hinv', hd'.trans hd2, hlen'.trans hlen2, ?_⟩
      rw [hsum', hsum2, List.countP_cons]
      by_cases hg : 1 < grp.length
      · rw [if_pos hg, if_pos (by simpa using hg)]
        omega
      · rw [if_neg hg, if_neg (by simpa using hg)]
        omega

lemma countP_split (alns : List (List Aln)) (hne : ∀ grp ∈ alns, grp ≠ []) :
    alns.countP (fun g => g.length == 1) + alns.countP (fun g => decide (1 < g.length))
      = alns.length := by
  induction alns with
  | nil => simp
  | cons grp rest ih =>
    have hg := hne grp (by simp)
    have hrest : ∀ g ∈ rest, g ≠ [] := fun g hgm => hne g (by simp [hgm])
    rw [List.countP_cons, List.countP_cons, List.length_cons, ← ih hrest]
    have hlen : 0 < grp.length := List.length_pos.mpr hg
    by_cases h1 : grp.length = 1
    · rw [if_pos (by simpa using h1), if_neg (by simp [h1])]
      omega
    · have h2 : 1 < grp.length := by omega
      rw [if_neg (by simpa using h1), if_pos (by simpa using h2)]
      omega

/-- C4: after `assign_unique` and `assign_non_unique`, every best-hit group
(unique or ambiguous) has contributed exactly one alignment record to
exactly one cluster's list: the total number of records over all cluster
lists equals the number of best-hit groups. -/
theorem read_conservation (registry : List String) (alns : List (List Aln)) (us : ℕ → ℚ)
    (s s' : Store) (d d' : Dict) (hnd : registry.Nodup)
    (h1 : assign_unique registry alns = some (s, d))
    (h2 : assign_non_unique us alns s d = some (s', d'))
    (hne : ∀ grp ∈ alns, grp ≠ []) :
    sumLens s' d' = alns.length := by
  obtain ⟨hst, hkeys, hinv0⟩ := initState_spec registry hnd
  unfold assign_unique at h1
  obtain ⟨hinv1, hd1, hlen1, hsum1⟩ := assign_unique_go_spec alns (initState registry) (s, d) h1 hinv0
  unfold assign_non_unique at h2
  cases hgo : anu_go us ⟨s, d, 0, []⟩ alns with
  | none => rw [hgo] at h2; cases h2
  | some st' =>
    rw [hgo] at h2
    simp only [Option.map_some'] at h2
    injection h2 with h2p
    injection h2p with h2a h2b
    obtain ⟨hinv2, hd2, hlen2, hsum2⟩ := anu_go_spec us alns ⟨s, d, 0, []⟩ st' hgo hinv1
    have hz := sumLens_initState registry hnd
    dsimp only at hsum1 hsum2
    rw [← h2a, ← h2b, hsum2, hsum1, hz]
    simpa using countP_split alns hne

lemma normalize_counts_keys (items : List (String × List Aln)) (gl : String → ℤ) :
    (normalize_counts items gl).map (fun p => p.1) = items.map (fun p => p.1) := by
  simp [normalize_counts, cluster_covs, List.map_map, Function.comp]

lemma dictItems_keys (s : Store) (d : Dict) :
    (dictItems s d).map (fun p => p.1) = d.map Prod.fst := by
  simp [dictItems, List.map_map, Function.comp]

/-- C5: after the unique/ambiguous classification, the cluster dict has an
entry (a possibly empty list) for every registry cluster, and the written
abundance table consists of the header plus exactly one data row per
registry cluster, in registry order, including zero-coverage clusters. -/
theorem registry_rows_complete (registry : List String) (alns : List (List Aln)) (us : ℕ → ℚ)
    (gl : String → ℤ) (s s' : Store) (d d' : Dict) (hnd : registry.Nodup)
    (h1 : assign_unique registry alns = some (s, d))
    (h2 : assign_non_unique us alns s d = some (s', d')) :
    (∀ c ∈ registry, ∃ r, dictLookup d c = some r) ∧ d' = d ∧
      (normalize_counts (dictItems s' d') gl).map (fun p => p.1) = registry ∧
      write_abundance (normalize_counts (dictItems s' d') gl)
        = "cluster_id\tcoverage\trelative_abundance"
            :: (normalize_counts (dictItems s' d') gl).map render_row := by
  obtain ⟨hst, hkeys, hinv0⟩ := initState_spec registry hnd
  unfold assign_unique at h1
  obtain ⟨hinv1, hd1, hlen1, hsum1⟩ := assign_unique_go_spec alns (initState registry) (s, d) h1 hinv0
  have hdkeys : d.map Prod.fst = registry := by
    have : (s, d).2 = (initState registry).2 := hd1
    simp only at this
    rw [this, hkeys]
  unfold assign_non_unique at h2
  cases hgo : anu_go us ⟨s, d, 0, []⟩ alns with
  | none => rw [hgo] at h2; cases h2
  | some st' =>
    rw [hgo] at h2
    simp only [Option.map_some'] at h2
    injection h2 with h2p
    injection h2p with h2a h2b
    obtain ⟨hinv2, hd2, hlen2, hsum2⟩ := anu_go_spec us alns ⟨s, d, 0, []⟩ st' hgo hinv1
    have hdd : d' = d := by rw [← h2b, hd2]
    refine ⟨?_, hdd, ?_, rfl⟩
    · intro c hc
      exact dictLookup_isSome_of_mem_keys (by rw [hdkeys]; exact hc)
    · rw [normalize_counts_keys, dictItems_keys, hdd, hdkeys]

lemma anu_step_store_mono {us : ℕ → ℚ} {st st2 : ANUState} {grp : List Aln}
    (h : anu_step us st grp = some st2) :
    ∀ (r : ℕ) (a : Aln), a ∈ st.store.getD r [] → a ∈ st2.store.getD r [] := by
  intro r a ha
  by_cases hlen : 1 < grp.length
  · rw [anu_step, if_pos hlen] at h
    split at h
    · cases h
    · rename_i refs hm
      split at h
      · cases h
      · rename_i r' hl
        injection h with h
        subst h
        dsimp only
        rcases getD_storeAppend_cases st.store r' r
            (grp.getD ((anu_clusters grp).indexOf
              (pick_cluster (anu_clusters grp) (anu_counts st.store refs) (us st.draws)))
              (grp.headD default)) with hc | hc
        · rw [hc]; exact ha
        · rw [hc]; exact List.mem_append_left _ ha
  · rw [anu_step, if_neg hlen] at h
    injection h with h
    subst h
    exact ha

lemma anu_go_store_mono (us : ℕ → ℚ) :
    ∀ (alns : List (List Aln)) (st st' : ANUState), anu_go us st alns = some st' →
      ∀ (r : ℕ) (a : Aln), a ∈ st.store.getD r [] → a ∈ st'.store.getD r [] := by
  intro alns
  induction alns with
  | nil =>
    intro st st' h r a ha
    simp only [anu_go] at h
    injection h with h
    subst h
    exact ha
  | cons grp rest ih =>
    intro st st' h r a ha
    simp only [anu_go] at h
    cases hstep : anu_step us st grp with
    | none => rw [hstep] at h; cases h
    | some st2 =>
      rw [hstep] at h
      exact ih st2 st' h r a (anu_step_store_mono hstep r a ha)

lemma getD_self_mem {l : List Aln} (h : l ≠ []) (i : ℕ) :
    l.getD i (l.headD default) ∈ l := by
  by_cases hi : i < l.length
  · rw [List.getD_eq_getElem?_getD, List.getElem?_eq_getElem hi]
    simp only [Option.getD_some]
    exact List.getElem_mem hi
  · rw [List.getD_eq_getElem?_getD, List.getElem?_eq_none (by omega)]
    cases l with
    | nil => exact absurd rfl h
    | cons x t => simp

lemma anu_go_contributes (us : ℕ → ℚ) :
    ∀ (alns : List (List Aln)) (st st' : ANUState), anu_go us st alns = some st' →
      DInv st.store st.dict →
      ∀ grp ∈ alns, 1 < grp.length →
        ∃ c r a, dictLookup st.dict c = some r ∧ a ∈ grp ∧ a ∈ st'.store.getD r [] := by
  intro alns
  induction alns with
  | nil =>
    intro st st' h hinv grp hg
    simp at hg
  | cons grp0 rest ih =>
    intro st st' h hinv grp hg hlen
    simp only [anu_go] at h
    cases hstep : anu_step us st grp0 with
    | none => rw [hstep] at h; cases h
    | some st2 =>
      rw [hstep] at h
      have hspec := anu_step_spec hstep hinv
      rcases List.mem_cons.mp hg with hgeq | hgm
      · subst hgeq
        rw [anu_step, if_pos hlen] at hstep
        split at hstep
        · cases hstep
        · rename_i refs hm
          split at hstep
          · cases hstep
          · rename_i r hl
            injection hstep with hstep
            subst hstep
            have hne : grp ≠ [] := by
              intro hc
              rw [hc] at hlen
              simp at hlen
            refine ⟨_, r, _, hl, getD_self_mem hne ((anu_clusters grp).indexOf
              (pick_cluster (anu_clusters grp) (anu_counts st.store refs) (us st.draws))), ?_⟩
            refine anu_go_store_mono us rest _ st' h r _ ?_
            dsimp only
            rw [getD_storeAppend_self st.store r _ (hinv.2 _ (dictLookup_mem hl))]
            exact List.mem_append_right _ (by simp)
      · have hd2 : st2.dict = st.dict := hspec.2.1
        have hres := ih st2 st' h hspec.1 grp hgm hlen
        rw [hd2] at hres
        exact hres

/-- C10: `total_alns = unique_alns.copy()` is a shallow copy, so
`assign_non_unique` returns the very same dict (same cluster-to-list
references) and mutates the lists reachable from the caller's `unique_alns`:
after the call, each ambiguous group has deposited one of its tied records
into the list that `unique_alns` reaches for the chosen cluster, so the
caller's unique-only structure is no longer unique-only. -/
theorem assign_non_unique_mutates (us : ℕ → ℚ) (alns : List (List Aln))
    (s s' : Store) (d d' : Dict) (hinv : DInv s d)
    (h : assign_non_unique us alns s d = some (s', d')) :
    d' = d ∧ ∀ grp ∈ alns, 1 < grp.length →
      ∃ c r a, dictLookup d c = some r ∧ a ∈ grp ∧ a ∈ s'.getD r [] := by
  unfold assign_non_unique at h
  cases hgo : anu_go us ⟨s, d, 0, []⟩ alns with
  | none => rw [hgo] at h; cases h
  | some st' =>
    rw [hgo] at h
    simp only [Option.map_some'] at h
    injection h with h2p
    injection h2p with h2a h2b
    obtain ⟨hinv2, hd2, hlen2, hsum2⟩ := anu_go_spec us alns ⟨s, d, 0, []⟩ st' hgo hinv
    constructor
    · rw [← h2b, hd2]
    · intro grp hg hlen
      obtain ⟨c, r, a, hlk, hag, hmem⟩ := anu_go_contributes us alns ⟨s, d, 0, []⟩ st' hgo hinv grp hg hlen
      exact ⟨c, r, a, hlk, hag, by rw [← h2a]; exact hmem⟩

/-! ### Helper lemmas and theorems: the normalizer -/

lemma sum_map_snd_div (l : List (String × ℚ)) (t : ℚ) :
    (l.map (fun p => p.2 / t)).sum = (l.map Prod.snd).sum / t := by
  induction l with
  | nil => simp
  | cons x xs ih => simp [ih, add_div]

/-- C6: under the non-rescaled normalization, the relative-abundance values
produced by `normalize_counts` sum to exactly 1 whenever the total coverage
is positive, and every cluster's relative abundance is 0 when the total
coverage is 0. -/
theorem rel_abun_normalization (items : List (String × List Aln)) (gl : String → ℤ) :
    (0 < total_cov items gl →
      ((normalize_counts items gl).map (fun p => p.2.2)).sum = 1) ∧
    (total_cov items gl = 0 → ∀ p ∈ normalize_counts items gl, p.2.2 = 0) := by
  constructor
  · intro h
    have hT : total_cov items gl ≠ 0 := ne_of_gt h
    simp only [normalize_counts, List.map_map, Function.comp_def, if_pos h]
    rw [sum_map_snd_div]
    exact div_self hT
  · intro h p hp
    simp only [normalize_counts, List.mem_map] at hp
    obtain ⟨q, hq, rfl⟩ := hp
    simp [h]

/-- C7: at every position of the finalized cluster-alignments items, the
computed coverage is the summed alignment length divided by the cluster's
total gene length when records are assigned, and exactly 0 (no division)
when none are; gene-length positivity is the precondition whenever records
are assigned. -/
theorem coverage_formula (items : List (String × List Aln)) (gl : String → ℤ)
    (i : ℕ) (c : String) (alns : List Aln) (h : items[i]? = some (c, alns))
    (hg : alns ≠ [] → 0 < gl c) :
    ∃ rel, (normalize_counts items gl)[i]? =
      some (c, (if alns = [] then 0
        else (((alns.map Aln.aln).sum : ℤ) : ℚ) / ((gl c : ℤ) : ℚ), rel)) := by
  have hiff : (if alns = [] then (0 : ℚ)
        else (((alns.map Aln.aln).sum : ℤ) : ℚ) / ((gl c : ℤ) : ℚ))
      = (if 0 < alns.length then (((alns.map Aln.aln).sum : ℤ) : ℚ) / ((gl c : ℤ) : ℚ)
        else 0) := by
    by_cases ha : alns = []
    · subst ha
      simp
    · rw [if_neg ha, if_pos (List.length_pos.mpr ha)]
  refine ⟨if 0 < total_cov items gl
      then (if 0 < alns.length
        then (((alns.map Aln.aln).sum : ℤ) : ℚ) / ((gl c : ℤ) : ℚ) else 0)
          / total_cov items gl
      else 0, ?_⟩
  rw [hiff]
  simp [normalize_counts, cluster_covs, List.getElem?_map, h]

/-! ### Helper lemmas: the best-hit resolver -/

/-- The records of `l` for query `q` that pass both acceptance filters: the
specification-side description of the accepted records of a query. -/
def acceptedFor (cutoffs : String → ℚ) (l : List Aln) (q : String) : List Aln :=
  l.filter (fun a => accept cutoffs a && a.query == q)

lemma find?_eq_head?_filter {α : Type} (l : List α) (p : α → Bool) :
    l.find? p = (l.filter p).head? := by
  induction l with
  | nil => simp
  | cons x t ih =>
    by_cases hx : p x = true
    · rw [List.find?_cons_of_pos _ hx, List.filter_cons_of_pos hx]
      rfl
    · rw [List.find?_cons_of_neg _ (by simp [hx]), List.filter_cons_of_neg (by simp [hx])]
      exact ih

lemma bh_lookup_of_filter_nil {bh : BestHits} {q : String}
    (h : bh.filter (fun p => p.1 == q) = []) : bh_lookup bh q = none := by
  rw [bh_lookup, find?_eq_head?_filter, h]
  rfl

lemma bh_lookup_of_filter_single {bh : BestHits} {q : String} {G : List Aln}
    (h : bh.filter (fun p => p.1 == q) = [(q, G)]) : bh_lookup bh q = some G := by
  rw [bh_lookup, find?_eq_head?_filter, h]
  rfl

lemma filter_bh_update_nil {bh : BestHits} {q : String} (g' : List Aln)
    (h : bh.filter (fun p => p.1 == q) = []) :
    (bh_update bh q g').filter (fun p => p.1 == q) = [] := by
  induction bh with
  | nil => simp [bh_update]
  | cons x t ih =>
    rw [List.filter_cons] at h
    by_cases hx : (x.1 == q) = true
    · rw [if_pos hx] at h
      cases h
    · rw [if_neg hx] at h
      simp only [bh_update, List.map_cons, if_neg hx]
      rw [List.filter_cons, if_neg hx]
      exact ih h

lemma filter_bh_update_single {bh : BestHits} {q : String} {G g' : List Aln}
    (h : bh.filter (fun p => p.1 == q) = [(q, G)]) :
    (bh_update bh q g').filter (fun p => p.1 == q) = [(q, g')] := by
  induction bh with
  | nil => simp at h
  | cons x t ih =>
    rw [List.filter_cons] at h
    by_cases hx : (x.1 == q) = true
    · rw [if_pos hx] at h
      injection h with h1 h2
      simp only [bh_update, List.map_cons, if_pos hx]
      rw [List.filter_cons, if_pos (by simp)]
      have ht := filter_bh_update_nil g' h2
      simp only [bh_update] at ht
      rw [ht]
    · rw [if_neg hx] at h
      simp only [bh_update, List.map_cons, if_neg hx]
      rw [List.filter_cons, if_neg hx]
      exact ih h

lemma filter_bh_update_ne {bh : BestHits} {q q' : String} {g' : List Aln} (hne : q' ≠ q) :
    (bh_update bh q' g').filter (fun p => p.1 == q) = bh.filter (fun p => p.1 == q) := by
  induction bh with
  | nil => simp [bh_update]
  | cons x t ih =>
    simp only [bh_update, List.map_cons]
    by_cases hx : (x.1 == q') = true
    · rw [if_pos hx]
      have hx1 : x.1 = q' := by simpa using hx
      have hq1 : (q' == q) = false := by simpa using hne
      rw [List.filter_cons, List.filter_cons]
      have hxq : (x.1 == q) = false := by
        rw [hx1]
        exact hq1
      rw [if_neg (by simp [hq1]), if_neg (by simp [hxq])]
      exact ih
    · rw [if_neg hx]
      rw [List.filter_cons, List.filter_cons]
      by_cases hxq : (x.1 == q) = true
      · rw [if_pos hxq, if_pos hxq]
        exact congrArg (fun l => x :: l) ih
      · rw [if_neg hxq, if_neg hxq]
        exact ih

lemma fbh_step_reject {cutoffs : String → ℚ} {bh : BestHits} {a : Aln}
    (ha : accept cutoffs a = false) : fbh_step cutoffs bh a = bh := by
  unfold fbh_step
  rw [if_neg (by simp [ha])]

lemma fbh_step_accept_none {cutoffs : String → ℚ} {bh : BestHits} {a : Aln}
    (ha : accept cutoffs a = true) (hl : bh_lookup bh a.query = none) :
    fbh_step cutoffs bh a = bh ++ [(a.query, [a])] := by
  unfold fbh_step
  rw [if_pos ha, hl]

lemma fbh_step_accept_eq {cutoffs : String → ℚ} {bh : BestHits} {a : Aln} {g : List Aln}
    (ha : accept cutoffs a = true) (hl : bh_lookup bh a.query = some g)
    (hsc : (g.headD a).score = a.score) :
    fbh_step cutoffs bh a = bh_update bh a.query (g ++ [a]) := by
  unfold fbh_step
  rw [if_pos ha, hl]
  dsimp only
  rw [if_pos hsc]

lemma fbh_step_accept_gt {cutoffs : String → ℚ} {bh : BestHits} {a : Aln} {g : List Aln}
    (ha : accept cutoffs a = true) (hl : bh_lookup bh a.query = some g)
    (hne : (g.headD a).score ≠ a.score) (hlt : (g.headD a).score < a.score) :
    fbh_step cutoffs bh a = bh_update bh a.query [a] := by
  unfold fbh_step
  rw [if_pos ha, hl]
  dsimp only
  rw [if_neg hne, if_pos hlt]

lemma fbh_step_accept_lt {cutoffs : String → ℚ} {bh : BestHits} {a : Aln} {g : List Aln}
    (ha : accept cutoffs a = true) (hl : bh_lookup bh a.query = some g)
    (hne : (g.headD a).score ≠ a.score) (hnlt : ¬ (g.headD a).score < a.score) :
    fbh_step cutoffs bh a = bh := by
  unfold fbh_step
  rw [if_pos ha, hl]
  dsimp only
  rw [if_neg hne, if_neg hnlt]

lemma filter_fbh_step_ne {cutoffs : String → ℚ} {bh : BestHits} {a : Aln} {q : String}
    (hne : a.query ≠ q) :
    (fbh_step cutoffs bh a).filter (fun p => p.1 == q) = bh.filter (fun p => p.1 == q) := by
  by_cases ha : accept cutoffs a = true
  · cases hl : bh_lookup bh a.query with
    | none =>
      rw [fbh_step_accept_none ha hl, List.filter_append]
      have : (((a.query, [a]) : String × List Aln).1 == q) = false := by simpa using hne
      simp [this]
    | some g =>
      by_cases h1 : (g.headD a).score = a.score
      · rw [fbh_step_accept_eq ha hl h1]
        exact filter_bh_update_ne hne
      · by_cases h2 : (g.headD a).score < a.score
        · rw [fbh_step_accept_gt ha hl h1 h2]
          exact filter_bh_update_ne hne
        · rw [fbh_step_accept_lt ha hl h1 h2]
  · rw [fbh_step_reject (by simpa using ha)]

lemma headD_mem {G : List Aln} (h : G ≠ []) (x : Aln) : G.headD x ∈ G := by
  cases G with
  | nil => exact absurd rfl h
  | cons y t => simp

lemma mem_score_filter {l : List Aln} {m : ℚ} {x : Aln}
    (hx : x ∈ l.filter (fun y => decide (y.score = m))) : x.score = m := by
  have := List.of_mem_filter hx
  simpa using this

lemma best_hits_characterization (cutoffs : String → ℚ) (l : List Aln) (q : String) :
    (acceptedFor cutoffs l q = [] ∧
        (best_hits_table cutoffs l).filter (fun p => p.1 == q) = []) ∨
      ∃ m, (∀ x ∈ acceptedFor cutoffs l q, x.score ≤ m) ∧
        (∃ x ∈ acceptedFor cutoffs l q, x.score = m) ∧
        (best_hits_table cutoffs l).filter (fun p => p.1 == q)
          = [(q, (acceptedFor cutoffs l q).filter (fun x => decide (x.score = m)))] := by
  induction l using List.reverseRecOn with
  | nil => exact Or.inl ⟨rfl, rfl⟩
  | append_singleton l a ih =>
    have htab : best_hits_table cutoffs (l ++ [a])
        = fbh_step cutoffs (best_hits_table cutoffs l) a := by
      simp [best_hits_table, List.foldl_append]
    by_cases ha : accept cutoffs a = true
    · by_cases hq : a.query = q
      · -- the new record is accepted and belongs to query q
        have hpred : (accept cutoffs a && (a.query == q)) = true := by
          simp [ha, hq]
        have hacc : acceptedFor cutoffs (l ++ [a]) q = acceptedFor cutoffs l q ++ [a] := by
          simp [acceptedFor, List.filter_append, hpred]
        rcases ih with ⟨hae, hfe⟩ | ⟨m, hb, hatt, hfil⟩
        · -- first accepted record for q
          have hl : bh_lookup (best_hits_table cutoffs l) a.query = none := by
            rw [hq]
            exact bh_lookup_of_filter_nil hfe
          right
          refine ⟨a.score, ?_, ⟨a, by simp [hacc, hae], rfl⟩, ?_⟩
          · intro x hx
            rw [hacc, hae] at hx
            simp only [List.nil_append, List.mem_singleton] at hx
            exact le_of_eq (by rw [hx])
          · rw [htab, fbh_step_accept_none ha hl, List.filter_append, hfe, hacc, hae]
            simp [hq]
        · -- q already has a group G = accepted.filter (score = m)
          have hG : bh_lookup (best_hits_table cutoffs l) a.query
              = some ((acceptedFor cutoffs l q).filter (fun x => decide (x.score = m))) := by
            rw [hq]
            exact bh_lookup_of_filter_single hfil
          obtain ⟨w, hw, hwsc⟩ := hatt
          have hGne : (acceptedFor cutoffs l q).filter (fun x => decide (x.score = m)) ≠ [] := by
            intro hc
            have : w ∈ (acceptedFor cutoffs l q).filter (fun x => decide (x.score = m)) :=
              List.mem_filter.mpr ⟨hw, by simpa using hwsc⟩
            rw [hc] at this
            cases this
          have hhead : (((acceptedFor cutoffs l q).filter
              (fun x => decide (x.score = m))).headD a).score = m :=
            mem_score_filter (headD_mem hGne a)
          rcases lt_trichotomy a.score m with hlt | heq | hgt
          · -- lower score: record discarded, group unchanged
            have hne : (((acceptedFor cutoffs l q).filter
                (fun x => decide (x.score = m))).headD a).score ≠ a.score := by
              rw [hhead]
              exact (ne_of_gt hlt)
            have hnlt : ¬ (((acceptedFor cutoffs l q).filter
                (fun x => decide (x.score = m))).headD a).score < a.score := by
              rw [hhead]
              exact not_lt.mpr (le_of_lt hlt)
            right
            refine ⟨m, ?_, ⟨w, by simp [hacc, hw], hwsc⟩, ?_⟩
            · intro x hx
              rw [hacc] at hx
              rcases List.mem_append.mp hx with hx | hx
              · exact hb x hx
              · simp only [List.mem_singleton] at hx
                subst hx
                exact le_of_lt hlt
            · rw [htab, fbh_step_accept_lt ha hG hne hnlt, hfil, hacc, List.filter_append]
              have : List.filter (fun x => decide (x.score = m)) [a] = [] := by
                simp [ne_of_lt hlt]
              rw [this, List.append_nil]
          · -- tied score: record appended to the group
            have hsc : (((acceptedFor cutoffs l q).filter
                (fun x => decide (x.score = m))).headD a).score = a.score := by
              rw [hhead, heq]
            right
            refine ⟨m, ?_, ⟨w, by simp [hacc, hw], hwsc⟩, ?_⟩
            · intro x hx
              rw [hacc] at hx
              rcases List.mem_append.mp hx with hx | hx
              · exact hb x hx
              · simp only [List.mem_singleton] at hx
                subst hx
                exact le_of_eq heq
            · rw [htab, fbh_step_accept_eq ha hG hsc, hq,
                filter_bh_update_single hfil, hacc, List.filter_append]
              have : List.filter (fun x => decide (x.score = m)) [a] = [a] := by
                simp [heq]
              rw [this]
          · -- strictly higher score: the group is replaced by [a]
            have hne : (((acceptedFor cutoffs l q).filter
                (fun x => decide (x.score = m))).headD a).score ≠ a.score := by
              rw [hhead]
              exact (ne_of_lt hgt)
            have hlt2 : (((acceptedFor cutoffs l q).filter
                (fun x => decide (x.score = m))).headD a).score < a.score := by
              rw [hhead]
              exact hgt
            right
            refine ⟨a.score, ?_, ⟨a, by simp [hacc], rfl⟩, ?_⟩
            · intro x hx
              rw [hacc] at hx
              rcases List.mem_append.mp hx with hx | hx
              · exact le_of_lt (lt_of_le_of_lt (hb x hx) hgt)
              · simp only [List.mem_singleton] at hx
                subst hx
                exact le_refl _
            · rw [htab, fbh_step_accept_gt ha hG hne hlt2, hq,
                filter_bh_update_single hfil, hacc, List.filter_append]
              have h1 : List.filter (fun x => decide (x.score = a.score))
                  (acceptedFor cutoffs l q) = [] := by
                rw [List.filter_eq_nil_iff]
                intro x hx
                have := hb x hx
                simp only [decide_eq_true_eq]
                intro hc
                rw [hc] at this
                exact absurd hgt (not_lt.mpr this)
              have h2 : List.filter (fun x => decide (x.score = a.score)) [a] = [a] := by
                simp
              rw [h1, h2, List.nil_append]
      · -- accepted but a different query: everything for q is unchanged
        have hpred : (accept cutoffs a && (a.query == q)) = false := by
          simp [hq]
        have hacc : acceptedFor cutoffs (l ++ [a]) q = acceptedFor cutoffs l q := by
          simp [acceptedFor, List.filter_append, hpred]
        rw [hacc, htab, filter_fbh_step_ne hq]
        exact ih
    · -- rejected record: everything is unchanged
      have hpred : (accept cutoffs a && (a.query == q)) = false := by
        simp [Bool.eq_false_iff.mpr ha]
      have hacc : acceptedFor cutoffs (l ++ [a]) q = acceptedFor cutoffs l q := by
        simp [acceptedFor, List.filter_append, hpred]
      rw [hacc, htab, fbh_step_reject (by simpa using ha)]
      exact ih

/-- C3: for every query with at least one accepted record, the best-hits
table holds exactly one group for that query, and the group consists of
exactly the accepted records of the query whose score equals the maximum
accepted score; in particular every member passed both filters and all
members share the maximum score. -/
theorem find_best_hits_group_spec (cutoffs : String → ℚ) (l : List Aln) (q : String)
    (h : acceptedFor cutoffs l q ≠ []) :
    ∃ m, (∀ x ∈ acceptedFor cutoffs l q, x.score ≤ m) ∧
      (∃ x ∈ acceptedFor cutoffs l q, x.score = m) ∧
      (best_hits_table cutoffs l).filter (fun p => p.1 == q)
        = [(q, (acceptedFor cutoffs l q).filter (fun x => decide (x.score = m)))] ∧
      (acceptedFor cutoffs l q).filter (fun x => decide (x.score = m))
        ∈ find_best_hits cutoffs l := by
  rcases best_hits_characterization cutoffs l q with ⟨hae, -⟩ | ⟨m, hb, hatt, hfil⟩
  · exact absurd hae h
  · refine ⟨m, hb, hatt, hfil, ?_⟩
    have hmem : (q, (acceptedFor cutoffs l q).filter (fun x => decide (x.score = m)))
        ∈ (best_hits_table cutoffs l).filter (fun p => p.1 == q) := by
      rw [hfil]
      simp
    have hmem2 := List.mem_of_mem_filter hmem
    exact List.mem_map_of_mem Prod.snd hmem2

/-! ### Concrete data for the counterexample and witness theorems

One read (`exU`) maps uniquely to cluster A; reads q1 and q2 are ambiguous
between A and B; reads p1 and p2 are used for the three-cluster scenario. -/

def exU : Aln := ⟨"u1_100", "A_m1", 99, 80, 0, 0, 0, 0, 0, 0, 0, 100⟩

def exG1A : Aln := ⟨"q1_100", "A_m1", 99, 80, 0, 0, 0, 0, 0, 0, 0, 90⟩

def exG1B : Aln := ⟨"q1_100", "B_m1", 99, 80, 0, 0, 0, 0, 0, 0, 0, 90⟩

def exG2A : Aln := ⟨"q2_100", "A_m1", 99, 80, 0, 0, 0, 0, 0, 0, 0, 90⟩

def exG2B : Aln := ⟨"q2_100", "B_m1", 99, 80, 0, 0, 0, 0, 0, 0, 0, 90⟩

def exH1B : Aln := ⟨"p1_100", "B_m1", 99, 80, 0, 0, 0, 0, 0, 0, 0, 90⟩

def exH1C : Aln := ⟨"p1_100", "C_m1", 99, 80, 0, 0, 0, 0, 0, 0, 0, 90⟩

def exH2A : Aln := ⟨"p2_100", "A_m1", 99, 80, 0, 0, 0, 0, 0, 0, 0, 90⟩

def exH2B : Aln := ⟨"p2_100", "B_m1", 99, 80, 0, 0, 0, 0, 0, 0, 0, 90⟩

/-- A concrete random stream: first uniform draw 1/4, later draws 1/2
(all in `[0,1)`). -/
def us8 : ℕ → ℚ := fun n => if n = 0 then 1/4 else 1/2

/-- C2: on an 11-field input line (the final `score` column missing and all
present fields well formed), the alignment record reader yields a partial
11-field record silently — `zip(fields, formats, values)` truncates — rather
than failing with a parse error identifying the line. -/
theorem parse_blast_partial_record :
    (parse_blast [["q1_100", "A_m1", "99.0", "80", "0", "0", "1", "80", "1", "80", "0.001"]]).map
        (fun rs => rs.map (fun r => (r.length, r.map Prod.fst)))
      = some [(11, blast_fields.take 11)] := by decide

/-- C1: the weight vectors used for successive ambiguous reads are not the
fixed unique-read prior.  The unique pass assigns exactly one read to A and
none to B, so the fixed prior for a group tied between A and B would be
`[1, 0]` both times; but because `total_alns = unique_alns.copy()` shares
the list objects, the trace of weights actually used is `[[1, 0], [2, 0]]`:
reassigning the first ambiguous read changed the weights of the second. -/
theorem ambig_weights_drift :
    assign_unique ["A", "B"] [[exU], [exG1A, exG1B], [exG2A, exG2B]]
      = some ([[exU], []], [("A", 0), ("B", 1)]) ∧
    (([[exU], []] : Store).getD 0 []).length = 1 ∧
    (([[exU], []] : Store).getD 1 []).length = 0 ∧
    ambig_weights (fun _ => 1/2) [[exU], [exG1A, exG1B], [exG2A, exG2B]]
        [[exU], []] [("A", 0), ("B", 1)]
      = some [[1, 0], [2, 0]] := by
  refine ⟨?_, by decide, by decide, ?_⟩
  · norm_num [assign_unique, initState, init_step, dictInsert, assign_unique_go,
      assign_unique_step, storeAppend, exU, exG1A, exG1B, exG2A, exG2B,
      eq_false (by decide : ¬ (("A" : String) = "B")),
      eq_false (by decide : ¬ (("B" : String) = "A")),
      show cluster_of "A_m1" = "A" from by decide,
      show cluster_of "B_m1" = "B" from by decide,
      show dictLookup [("A", 0), ("B", 1)] "A" = some 0 from by decide,
      show dictLookup [("A", 0), ("B", 1)] "B" = some 1 from by decide]
  · norm_num [ambig_weights, anu_go, anu_step, anu_clusters, anu_counts, pick_cluster,
      chooseAux, storeAppend, List.mapM, List.mapM.loop, exU, exG1A, exG1B, exG2A, exG2B,
      eq_false (by decide : ¬ (("A" : String) = "B")),
      eq_false (by decide : ¬ (("B" : String) = "A")),
      show cluster_of "A_m1" = "A" from by decide,
      show cluster_of "B_m1" = "B" from by decide,
      show dictLookup [("A", 0), ("B", 1)] "A" = some 0 from by decide,
      show dictLookup [("A", 0), ("B", 1)] "B" = some 1 from by decide,
      show List.indexOf "A" ["A", "B"] = 0 from by decide,
      show List.indexOf "B" ["A", "B"] = 1 from by decide]

/-- C8: the claim fails on the code.  In the second ambiguous group the
candidates are A and B; among them exactly A has a nonzero unique-read
weight (one uniquely mapped read; B has none).  The claim then demands
assignment to A with probability 1.0 regardless of the random source.  But
the first ambiguous group (B vs C, all weights zero) was assigned uniformly
to B through the shared list objects, so the engine weights the second group
`[1, 1]` and, with the draw `us8 1 = 1/2`, appends the B record `exH2B` of
the second read to cluster B's list. -/
theorem reassign_zero_weight_drift :
    assign_unique ["A", "B", "C"] [[exU], [exH1B, exH1C], [exH2A, exH2B]]
      = some ([[exU], [], []], [("A", 0), ("B", 1), ("C", 2)]) ∧
    (([[exU], [], []] : Store).getD 0 []).length = 1 ∧
    (([[exU], [], []] : Store).getD 1 []).length = 0 ∧
    anu_clusters [exH2A, exH2B] = ["A", "B"] ∧
    assign_non_unique us8 [[exU], [exH1B, exH1C], [exH2A, exH2B]] [[exU], [], []]
        [("A", 0), ("B", 1), ("C", 2)]
      = some ([[exU], [exH1B, exH2B], []], [("A", 0), ("B", 1), ("C", 2)]) := by
  refine ⟨?_, by decide, by decide, by decide, ?_⟩
  · norm_num [assign_unique, initState, init_step, dictInsert, assign_unique_go,
      assign_unique_step, storeAppend, exU, exH1B, exH1C, exH2A, exH2B,
      eq_false (by decide : ¬ (("A" : String) = "B")),
      eq_false (by decide : ¬ (("A" : String) = "C")),
      eq_false (by decide : ¬ (("B" : String) = "A")),
      eq_false (by decide : ¬ (("B" : String) = "C")),
      eq_false (by decide : ¬ (("C" : String) = "A")),
      eq_false (by decide : ¬ (("C" : String) = "B")),
      show cluster_of "A_m1" = "A" from by decide,
      show cluster_of "B_m1" = "B" from by decide,
      show cluster_of "C_m1" = "C" from by decide,
      show dictLookup [("A", 0), ("B", 1), ("C", 2)] "A" = some 0 from by decide,
      show dictLookup [("A", 0), ("B", 1), ("C", 2)] "B" = some 1 from by decide,
      show dictLookup [("A", 0), ("B", 1), ("C", 2)] "C" = some 2 from by decide]
  · norm_num [assign_non_unique, us8, anu_go, anu_step, anu_clusters, anu_counts,
      pick_cluster, chooseAux, storeAppend, List.mapM, List.mapM.loop,
      exU, exH1B, exH1C, exH2A, exH2B,
      eq_false (by decide : ¬ (("A" : String) = "B")),
      eq_false (by decide : ¬ (("A" : String) = "C")),
      eq_false (by decide : ¬ (("B" : String) = "A")),
      eq_false (by decide : ¬ (("B" : String) = "C")),
      eq_false (by decide : ¬ (("C" : String) = "A")),
      eq_false (by decide : ¬ (("C" : String) = "B")),
      show cluster_of "A_m1" = "A" from by decide,
      show cluster_of "B_m1" = "B" from by decide,
      show cluster_of "C_m1" = "C" from by decide,
      show dictLookup [("A", 0), ("B", 1), ("C", 2)] "A" = some 0 from by decide,
      show dictLookup [("A", 0), ("B", 1), ("C", 2)] "B" = some 1 from by decide,
      show dictLookup [("A", 0), ("B", 1), ("C", 2)] "C" = some 2 from by decide,
      show List.indexOf "A" ["A", "B"] = 0 from by decide,
      show List.indexOf "B" ["A", "B"] = 1 from by decide,
      show List.indexOf "B" ["B", "C"] = 0 from by decide,
      show List.indexOf "C" ["B", "C"] = 1 from by decide]

/-! ### Concrete evaluations shared by the witnesses -/

lemma ex_assign_unique_eval :
    assign_unique ["A", "B"] [[exU], [exG1A, exG1B], [exG2A, exG2B]]
      = some ([[exU], []], [("A", 0), ("B", 1)]) := by
  norm_num [assign_unique, initState, init_step, dictInsert, assign_unique_go,
    assign_unique_step, storeAppend, exU, exG1A, exG1B, exG2A, exG2B,
    eq_false (by decide : ¬ (("A" : String) = "B")),
    eq_false (by decide : ¬ (("B" : String) = "A")),
    show cluster_of "A_m1" = "A" from by decide,
    show cluster_of "B_m1" = "B" from by decide,
    show dictLookup [("A", 0), ("B", 1)] "A" = some 0 from by decide,
    show dictLookup [("A", 0), ("B", 1)] "B" = some 1 from by decide]

lemma ex_assign_non_unique_eval :
    assign_non_unique (fun _ => 1/2) [[exU], [exG1A, exG1B], [exG2A, exG2B]]
        [[exU], []] [("A", 0), ("B", 1)]
      = some ([[exU, exG1A, exG2A], []], [("A", 0), ("B", 1)]) := by
  norm_num [assign_non_unique, anu_go, anu_step, anu_clusters, anu_counts, pick_cluster,
    chooseAux, storeAppend, List.mapM, List.mapM.loop, exU, exG1A, exG1B, exG2A, exG2B,
    eq_false (by decide : ¬ (("A" : String) = "B")),
    eq_false (by decide : ¬ (("B" : String) = "A")),
    show cluster_of "A_m1" = "A" from by decide,
    show cluster_of "B_m1" = "B" from by decide,
    show dictLookup [("A", 0), ("B", 1)] "A" = some 0 from by decide,
    show dictLookup [("A", 0), ("B", 1)] "B" = some 1 from by decide,
    show List.indexOf "A" ["A", "B"] = 0 from by decide,
    show List.indexOf "B" ["A", "B"] = 1 from by decide]

/-- Witness for C4 at the concrete run of both passes: three best-hit
groups, three records assigned in total. -/
theorem read_conservation_witness :
    (["A", "B"] : List String).Nodup ∧
      sumLens [[exU, exG1A, exG2A], []] [("A", 0), ("B", 1)] = 3 :=
  ⟨by decide,
    read_conservation ["A", "B"] [[exU], [exG1A, exG1B], [exG2A, exG2B]] (fun _ => 1/2)
      [[exU], []] [[exU, exG1A, exG2A], []] [("A", 0), ("B", 1)] [("A", 0), ("B", 1)]
      (by decide) ex_assign_unique_eval ex_assign_non_unique_eval (by decide)⟩

/-- Witness for C5 at the concrete run of both passes. -/
theorem registry_rows_complete_witness :
    (∀ c ∈ ["A", "B"], ∃ r, dictLookup [("A", 0), ("B", 1)] c = some r) ∧
      ([("A", 0), ("B", 1)] : Dict) = [("A", 0), ("B", 1)] ∧
      (normalize_counts (dictItems [[exU, exG1A, exG2A], []] [("A", 0), ("B", 1)])
          (fun _ => 1000)).map (fun p => p.1) = ["A", "B"] ∧
      write_abundance (normalize_counts (dictItems [[exU, exG1A, exG2A], []]
          [("A", 0), ("B", 1)]) (fun _ => 1000))
        = "cluster_id\tcoverage\trelative_abundance"
            :: (normalize_counts (dictItems [[exU, exG1A, exG2A], []]
              [("A", 0), ("B", 1)]) (fun _ => 1000)).map render_row :=
  registry_rows_complete ["A", "B"] [[exU], [exG1A, exG1B], [exG2A, exG2B]] (fun _ => 1/2)
    (fun _ => 1000) [[exU], []] [[exU, exG1A, exG2A], []] [("A", 0), ("B", 1)]
    [("A", 0), ("B", 1)] (by decide) ex_assign_unique_eval ex_assign_non_unique_eval

/-- Witness for C10 at the concrete run of the reassignment pass. -/
theorem assign_non_unique_mutates_witness :
    ([("A", 0), ("B", 1)] : Dict) = [("A", 0), ("B", 1)] ∧
      ∀ grp ∈ [[exU], [exG1A, exG1B], [exG2A, exG2B]], 1 < grp.length →
        ∃ c r a, dictLookup [("A", 0), ("B", 1)] c = some r ∧ a ∈ grp ∧
          a ∈ ([[exU, exG1A, exG2A], []] : Store).getD r [] :=
  assign_non_unique_mutates (fun _ => 1/2) [[exU], [exG1A, exG1B], [exG2A, exG2B]]
    [[exU], []] [[exU, exG1A, exG2A], []] [("A", 0), ("B", 1)] [("A", 0), ("B", 1)]
    (by decide) ex_assign_non_unique_eval

/-- Witness for C6: one cluster with one 80-base record over gene length
1000 gives positive total coverage, and the relative abundances sum to 1. -/
theorem rel_abun_normalization_witness :
    0 < total_cov [("A", [exU]), ("B", [])] (fun _ => 1000) ∧
      ((normalize_counts [("A", [exU]), ("B", [])] (fun _ => 1000)).map
        (fun p => p.2.2)).sum = 1 :=
  have h : 0 < total_cov [("A", [exU]), ("B", [])] (fun _ => 1000) := by
    norm_num [total_cov, cluster_covs, exU]
  ⟨h, (rel_abun_normalization [("A", [exU]), ("B", [])] (fun _ => 1000)).1 h⟩

/-- Witness for C7 at position 0 of a concrete items list. -/
theorem coverage_formula_witness :
    ([("A", [exU]), ("B", [])] : List (String × List Aln))[0]? = some ("A", [exU]) ∧
      ∃ rel, (normalize_counts [("A", [exU]), ("B", [])] (fun _ => 1000))[0]? =
        some ("A", (if ([exU] : List Aln) = [] then 0
          else ((([exU].map Aln.aln).sum : ℤ) : ℚ) / (((1000 : ℤ) : ℤ) : ℚ), rel)) :=
  ⟨rfl, coverage_formula [("A", [exU]), ("B", [])] (fun _ => 1000) 0 "A" [exU] rfl
    (fun _ => by norm_num)⟩

lemma accept_true_of {cutoffs : String → ℚ} {a : Aln}
    (h1 : ¬ a.pid < cutoffs (marker_of a.target)) (h2 : ¬ query_coverage a < 3/4) :
    accept cutoffs a = true := by
  unfold accept
  rw [decide_eq_false_iff_not.mpr h1, decide_eq_false_iff_not.mpr h2]
  rfl

/-- A concrete marker-cutoff table: minimum percent identity 90 for every
marker. -/
def c3cut : String → ℚ := fun _ => 90

/-- Witness for C3: query q1 has two accepted tied records (scores 90/90);
the resolver keeps exactly one group for it, consisting of both. -/
theorem find_best_hits_group_spec_witness :
    acceptedFor c3cut [exU, exG1A, exG1B] "q1_100" ≠ [] ∧
      ∃ m, (∀ x ∈ acceptedFor c3cut [exU, exG1A, exG1B] "q1_100", x.score ≤ m) ∧
        (∃ x ∈ acceptedFor c3cut [exU, exG1A, exG1B] "q1_100", x.score = m) ∧
        (best_hits_table c3cut [exU, exG1A, exG1B]).filter (fun p => p.1 == "q1_100")
          = [("q1_100", (acceptedFor c3cut [exU, exG1A, exG1B] "q1_100").filter
              (fun x => decide (x.score = m)))] ∧
        (acceptedFor c3cut [exU, exG1A, exG1B] "q1_100").filter (fun x => decide (x.score = m))
          ∈ find_best_hits c3cut [exU, exG1A, exG1B] :=
  have hne : acceptedFor c3cut [exU, exG1A, exG1B] "q1_100" ≠ [] := by
    have h1 : accept c3cut exG1A = true :=
      accept_true_of (by norm_num [exG1A, c3cut])
        (by norm_num [query_coverage, exG1A, show read_len "q1_100" = 100 from by decide])
    have h2 : accept c3cut exG1B = true :=
      accept_true_of (by norm_num [exG1B, c3cut])
        (by norm_num [query_coverage, exG1B, show read_len "q1_100" = 100 from by decide])
    norm_num [acceptedFor, h1, h2,
      show exU.query = "u1_100" from rfl,
      show exG1A.query = "q1_100" from rfl,
      show exG1B.query = "q1_100" from rfl,
      show (("u1_100" : String) == "q1_100") = false from by decide,
      show (("q1_100" : String) == "q1_100") = true from by decide]
    exact List.cons_ne_nil _ _
  ⟨hne, find_best_hits_group_spec c3cut [exU, exG1A, exG1B] "q1_100" hne⟩

example : cluster_of "A_m1" = "A" := by decide
example : marker_of "A_m1" = "m1" := by decide
example : read_len "q1_100" = 100 := by decide
example : (pyFloat "99.5").isSome = true := by decide
example : pyFloat "9x" = none := by decide
example : pyInt "80" = some 80 := by decide
example :
    (parse_line ["q_100", "t_1", "99.0", "80", "0", "0", "1", "80", "1", "80", "0.001"]).map
      List.length = some 11 := by decide

end Species
